import Mathlib

set_option maxRecDepth 4000

/-!
Shallow embedding of the friends-list application core (`src/app.py`):
the co-occurrence aggregation engine (`get_best_friends`), the data
analysis summarizer (`create_data_analysis`), the query router
(`query_friends` / `process_query_with_claude` / `fallback_query_analysis`)
and the person-event listing (`get_events_by_person`).

Python strings are modelled as Lean `String`; Python string comparison
(code-point lexicographic) is modelled by an executable comparison on
`List Char` code points.  Python dicts (used only as insertion-ordered
counters) are modelled as association lists with an update operation
that keeps an existing key in place and appends a fresh key at the end,
exactly as CPython dicts behave.  The external collaborators (Weaviate
store, Anthropic client, `json.dumps`) are parameters.
-/

/-- The apostrophe character, used when building the literal message
strings of the source. -/
def apos : String := ⟨[Char.ofNat 39]⟩

/-- Python string `lower()` (ASCII-level), acting on the char list. -/
def pyLower (s : String) : String := ⟨s.data.map Char.toLower⟩

/-- Python string `strip()`: drop leading and trailing whitespace. -/
def pyStrip (s : String) : String :=
  ⟨((s.data.dropWhile Char.isWhitespace).reverse.dropWhile Char.isWhitespace).reverse⟩

/-- Code-point lexicographic `≤` on char lists: Python's string order. -/
def charListLe : List Char → List Char → Bool
  | [], _ => true
  | _ :: _, [] => false
  | a :: as, b :: bs =>
    if a.toNat < b.toNat then true
    else if b.toNat < a.toNat then false
    else charListLe as bs

/-- Python `s <= t` on strings. -/
def pyStrLe (a b : String) : Bool := charListLe a.data b.data

/-- Python `needle in hay` for char lists: contiguous subsequence test. -/
def seqIn (n : List Char) : List Char → Bool
  | [] => n.isEmpty
  | c :: rest => n.isPrefixOf (c :: rest) || seqIn n rest

/-- Python substring containment `needle in hay`. -/
def pyIn (needle hay : String) : Bool := seqIn needle.data hay.data

/-- Python slice `l[-n:]`: the last (up to) `n` elements. -/
def takeLast (n : Nat) (l : List α) : List α := l.drop (l.length - n)

/-- Python `repr` of a list of strings, as produced by an f-string
interpolation such as `f"{recent_events}"`. -/
def pyReprList (l : List String) : String :=
  "[" ++ String.intercalate ", " (l.map (fun s => apos ++ s ++ apos)) ++ "]"

/-- CPython dict counter update `d[k] = d.get(k, 0) + 1` on an
insertion-ordered association list: an existing key is updated in place,
a fresh key is appended at the end. -/
def bump {K : Type} [DecidableEq K] : List (K × Nat) → K → List (K × Nat)
  | [], k => [(k, 1)]
  | (k', c) :: rest, k =>
    if k = k' then (k', c + 1) :: rest else (k', c) :: bump rest k

/-- Python `max(xs, key=f)` (first element attaining the maximum wins,
since `max` only replaces the current best on a strictly greater key). -/
def pyMax? (f : α → Nat) : List α → Option α
  | [] => none
  | x :: xs => some (xs.foldl (fun b y => if f b < f y then y else b) x)

/-- The running-maximum fold underlying `pyMax?`, with explicit seed. -/
def pyMaxNE (f : α → Nat) (x : α) (l : List α) : α :=
  l.foldl (fun b y => if f b < f y then y else b) x

/-- Stable insertion used by the model of Python `sorted`: `x` is placed
before the first element `y` it may precede (`le x y`), so among
comparison-equal elements earlier input elements come first. -/
def pyInsertBy (le : α → α → Bool) (x : α) : List α → List α
  | [] => [x]
  | y :: ys => if le x y then x :: y :: ys else y :: pyInsertBy le x ys

/-- Python `sorted` with respect to a total `Bool` preorder `le`:
stable, ascending.  (Stable sorting is extensionally unique, so this
insertion sort has the same value as CPython's Timsort.) -/
def pySortedBy (le : α → α → Bool) : List α → List α
  | [] => []
  | x :: xs => pyInsertBy le x (pySortedBy le xs)

/-- The comparison used for `sorted(pair_counts.items(), key=lambda x:
x[1], reverse=True)`: `x` may precede `y` iff `y`'s count is not larger,
which (with stability) is exactly Python's stable descending sort. -/
def descByCount (x y : (String × String) × Nat) : Bool := decide (y.2 ≤ x.2)

/-- `tuple(sorted([a, b]))` on two strings. -/
def sorted2 (a b : String) : String × String :=
  if pyStrLe a b then (a, b) else (b, a)

/-- The pair sequence generated by the double loop
`for i in range(len(people)): for j in range(i+1, len(people))`,
in loop order: the head is paired with each later element in order,
then the loop proceeds from position 1. -/
def eventPairs : List String → List (String × String)
  | [] => []
  | p :: rest => rest.map (fun q => sorted2 p q) ++ eventPairs rest

/-- An Event record as stored in Weaviate (`event.properties` plus uuid):
`date_time` is nullable. -/
structure Event where
  uuid : String
  name : String
  activity_name : String
  date_time : Option String
  people : List String
deriving DecidableEq, Repr

/-- A Person record (only the fields the core reads). -/
structure Person where
  name : String
  gender : String
  birth_date : Option String
deriving DecidableEq, Repr

/-- An Activity record. -/
structure Activity where
  name : String
  atype : String
  indoor : Bool
  outdoor : Bool
deriving DecidableEq, Repr

/-- The `data_context` dict assembled in `process_query_with_claude`. -/
structure DataContext where
  events : List Event
  activities : List Activity
  people : List Person
deriving DecidableEq, Repr

/-- One entry of the `/api/best-friends` response. -/
structure FriendPairOut where
  person1 : String
  person2 : String
  events_together : Nat
deriving DecidableEq, Repr

/-- The `/api/person/<name>/events` response. -/
structure PersonEventsResp where
  person_name : String
  event_count : Nat
  events : List Event
deriving DecidableEq, Repr

/-- The JSON object returned by the query pipeline
(`{'answer': ..., 'type': ...}`; the constant empty `data` is omitted). -/
structure QueryResp where
  answer : String
  type : String
deriving DecidableEq, Repr

/-- The `pair_counts` dict built by the nested loops of
`get_best_friends` / `create_data_analysis` / `fallback_query_analysis`. -/
def pair_counts (events : List Event) : List ((String × String) × Nat) :=
  events.foldl (fun m e => (eventPairs e.people).foldl bump m) []

/-- The `person_counts` dict of `create_data_analysis`. -/
def person_counts (events : List Event) : List (String × Nat) :=
  events.foldl (fun m e => e.people.foldl bump m) []

/-- The `activity_counts` dict of `create_data_analysis`. -/
def activity_counts (events : List Event) : List (String × Nat) :=
  events.foldl (fun m e => bump m e.activity_name) []

/-- `/api/best-friends`: count co-occurrences, sort descending by count
(stable), format as response records. -/
def get_best_friends (events : List Event) : List FriendPairOut :=
  (pySortedBy descByCount (pair_counts events)).map
    (fun pc => ⟨pc.1.1, pc.1.2, pc.2⟩)

/-- `top_person = max(person_counts, key=person_counts.get) if person_counts else None`. -/
def top_person (events : List Event) : Option String :=
  (pyMax? (fun pc => pc.2) (person_counts events)).map (fun pc => pc.1)

/-- `top_activity = max(activity_counts, key=activity_counts.get) if activity_counts else None`. -/
def top_activity (events : List Event) : Option String :=
  (pyMax? (fun pc => pc.2) (activity_counts events)).map (fun pc => pc.1)

/-- `best_friends = max(pair_counts, key=pair_counts.get) if pair_counts else None`,
kept together with its count (the subsequent `pair_counts[best_friends]`
lookup returns exactly that count, keys being unique). -/
def best_friends_opt (events : List Event) : Option ((String × String) × Nat) :=
  pyMax? (fun pc => pc.2) (pair_counts events)

/-- Python `counts.get(key, 0)` where `key` may be `None`. -/
def lookupCount (m : List (String × Nat)) : Option String → Nat
  | none => 0
  | some k => ((m.find? (fun e => decide (e.1 = k))).map (fun e => e.2)).getD 0

/-- f-string rendering of a value that is a string or `None`. -/
def optNameStr : Option String → String
  | none => "None"
  | some s => s

/-- The `best_friends_text` f-string of `create_data_analysis`. -/
def best_friends_text (events : List Event) : String :=
  match best_friends_opt events with
  | some ((a, b), c) => a ++ " & " ++ b ++ " (" ++ toString c ++ " events together)"
  | none => "None calculated"

/-- `recent_events = sorted([e['name'] for e in events if e.get('date_time')])[-3:]
if events else []` — note the source sorts the event NAMES of the events
that have a non-null timestamp, not the timestamps. -/
def recent_events (events : List Event) : List String :=
  if events.isEmpty then []
  else
    takeLast 3 (pySortedBy pyStrLe
      ((events.filter (fun e => e.date_time.isSome)).map (fun e => e.name)))

/-- The `create_data_analysis` summary string (the triple-quoted
f-string of the source, with all interpolations substituted). -/
def create_data_analysis (events : List Event) : String :=
  "\nQUICK STATS:\n- Total events: " ++ toString events.length
  ++ "\n- Total unique people: " ++ toString (person_counts events).length
  ++ "\n- Total unique activities: " ++ toString (activity_counts events).length
  ++ "\n- Most active person: " ++ optNameStr (top_person events)
  ++ " (" ++ toString (lookupCount (person_counts events) (top_person events)) ++ " events)"
  ++ "\n- Most popular activity: " ++ optNameStr (top_activity events)
  ++ " (" ++ toString (lookupCount (activity_counts events) (top_activity events)) ++ " events)"
  ++ "\n- Best friends: " ++ best_friends_text events
  ++ "\n- Recent events: " ++ pyReprList (recent_events events)
  ++ "\n"

/-- The fixed cannot-process response of `fallback_query_analysis`. -/
def fallbackCannot : QueryResp :=
  ⟨"I" ++ apos ++ "m having trouble processing your question right now. Please try asking about specific people, activities, or events.",
   "fallback"⟩

/-- `fallback_query_analysis(events, query)`: keyword-match the
lowercased question; on a match answer with the top pair when any pair
exists, otherwise (or on no keyword match) return the fixed message. -/
def fallback_query_analysis (events : List Event) (query : String) : QueryResp :=
  let ql := pyLower query
  if pyIn "best friends" ql || pyIn "together" ql then
    match pyMax? (fun pc => pc.2) (pair_counts events) with
    | some ((a, b), c) =>
        ⟨a ++ " and " ++ b ++ " are the best friends with " ++ toString c
          ++ " events together.", "fallback"⟩
    | none => fallbackCannot
  else fallbackCannot

/-- The prompt f-string of `process_query_with_claude`, as a function of
the serialized data context, the analysis summary and the question slot. -/
def construct_prompt (dataContextJson analysisSummary query : String) : String :=
  "You are an AI assistant helping users understand friendship and event data. You have access to data about people, their activities, and events they"
  ++ apos ++ "ve attended together.\n\nDATA CONTEXT:\n"
  ++ dataContextJson
  ++ "\n\nANALYSIS SUMMARY:\n"
  ++ analysisSummary
  ++ "\n\nUSER QUESTION: \"" ++ query ++ "\"\n\n"
  ++ "Please provide a helpful, conversational response to the user"
  ++ apos ++ "s question based on the data above. Be specific with names, numbers, and details when possible. If you need to calculate relationships or statistics, do so based on the provided data.\n\nKeep your response friendly and informative. Focus on answering the specific question asked."

/-- `process_query_with_claude`: build the prompt, call the model
adapter exactly once; on success return its text as a
`claude_response`, on any failure return `fallback_query_analysis` on
the same event batch.  The second component records the prompts handed
to the adapter.  The store fetches are modelled by the `ctx` snapshot
and `json.dumps` by the `serializeContext` parameter. -/
def process_query_with_claude (adapter : String → Option String)
    (serializeContext : DataContext → String) (ctx : DataContext)
    (query : String) : QueryResp × List String :=
  let analysis := create_data_analysis ctx.events
  let prompt := construct_prompt (serializeContext ctx) analysis query
  match adapter prompt with
  | some text => (⟨text, "claude_response"⟩, [prompt])
  | none => (fallback_query_analysis ctx.events query, [prompt])

/-- The `/api/query` route body: normalize the question with
`.lower().strip()`, reject it when empty (HTTP 400, the adapter is
never invoked), otherwise run the model pipeline.  `Except.error` is
the 400 response. -/
def query_friends (adapter : String → Option String)
    (serializeContext : DataContext → String) (ctx : DataContext)
    (rawQuery : String) : Except String QueryResp × List String :=
  let q := pyStrip (pyLower rawQuery)
  if q = "" then (Except.error "Query is required", [])
  else
    let r := process_query_with_claude adapter serializeContext ctx q
    (Except.ok r.1, r.2)

/-- `/api/person/<name>/events`: re-filter the keyword-search results to
exact membership of the name in the people list. -/
def get_events_by_person (searchResults : List Event) (person_name : String) :
    PersonEventsResp :=
  let evs := searchResults.filter (fun e => decide (person_name ∈ e.people))
  ⟨person_name, evs.length, evs⟩

/-- Refinement comparison definition following claim C2's words: the
names of the (up to) three events whose non-null timestamp values are
lexically greatest, obtained by sorting ascending on the string
timestamp; null-timestamp events are excluded. -/
def recent_event_names_spec (events : List Event) : List String :=
  (takeLast 3 (pySortedBy
      (fun a b => pyStrLe (a.date_time.getD "") (b.date_time.getD ""))
      (events.filter (fun e => e.date_time.isSome)))).map (fun e => e.name)

/-- Refinement comparison definition following claim C4's words: the
total number of 2-combinations summed over each event's
distinct-position attendee pairs after self-pair guarding (pairs whose
two normalized names are equal are skipped). -/
def guardedPairTotal (events : List Event) : Nat :=
  (events.map
    (fun e => ((eventPairs e.people).filter (fun p => decide (p.1 ≠ p.2))).length)).sum

/-- Two output records describe the same unordered name pair. -/
def sameUnordered (a b : FriendPairOut) : Prop :=
  (a.person1 = b.person1 ∧ a.person2 = b.person2) ∨
  (a.person1 = b.person2 ∧ a.person2 = b.person1)

/-- The four-event batch on which event names and timestamps sort in
opposite orders: names A,B,C,D carry timestamps 2024,2023,2022,2021. -/
def cexC2Events : List Event :=
  [⟨"u1", "A", "x", some "2024-05-01", []⟩,
   ⟨"u2", "B", "x", some "2023-05-01", []⟩,
   ⟨"u3", "C", "x", some "2022-05-01", []⟩,
   ⟨"u4", "D", "x", some "2021-05-01", []⟩]

/-! ## Order lemmas for the code-point comparison -/

theorem charListLe_total (a : List Char) :
    ∀ b, charListLe a b = true ∨ charListLe b a = true := by
  induction a with
  | nil => intro b; left; simp [charListLe]
  | cons x xs ih =>
    intro b
    cases b with
    | nil => right; simp [charListLe]
    | cons y ys =>
      by_cases h1 : x.toNat < y.toNat
      · left; simp [charListLe, h1]
      · by_cases h2 : y.toNat < x.toNat
        · right; simp [charListLe, h1, h2]
        · rcases ih ys with h | h
          · left; simp [charListLe, h1, h2, h]
          · right; simp [charListLe, h1, h2, h]

theorem charListLe_trans (a : List Char) :
    ∀ b c, charListLe a b = true → charListLe b c = true →
      charListLe a c = true := by
  induction a with
  | nil => intro b c _ _; simp [charListLe]
  | cons x xs ih =>
    intro b c hab hbc
    cases b with
    | nil => simp [charListLe] at hab
    | cons y ys =>
      cases c with
      | nil => simp [charListLe] at hbc
      | cons z zs =>
        by_cases hxy : x.toNat < y.toNat
        · by_cases hyz : y.toNat < z.toNat
          · simp [charListLe, show x.toNat < z.toNat by omega]
          · by_cases hzy : z.toNat < y.toNat
            · simp [charListLe, hyz, hzy] at hbc
            · simp [charListLe, show x.toNat < z.toNat by omega]
        · by_cases hyx : y.toNat < x.toNat
          · simp [charListLe, hxy, hyx] at hab
          · by_cases hyz : y.toNat < z.toNat
            · simp [charListLe, show x.toNat < z.toNat by omega]
            · by_cases hzy : z.toNat < y.toNat
              · simp [charListLe, hyz, hzy] at hbc
              · simp [charListLe, hxy, hyx] at hab
                simp [charListLe, hyz, hzy] at hbc
                simp [charListLe, show ¬ x.toNat < z.toNat by omega,
                  show ¬ z.toNat < x.toNat by omega]
                exact ih ys zs hab hbc

theorem charListLe_antisymm (a : List Char) :
    ∀ b, charListLe a b = true → charListLe b a = true → a = b := by
  induction a with
  | nil =>
    intro b _ h2
    cases b with
    | nil => rfl
    | cons y ys => simp [charListLe] at h2
  | cons x xs ih =>
    intro b h1 h2
    cases b with
    | nil => simp [charListLe] at h1
    | cons y ys =>
      by_cases hxy : x.toNat < y.toNat
      · simp [charListLe, hxy, show ¬ y.toNat < x.toNat by omega] at h2
      · by_cases hyx : y.toNat < x.toNat
        · simp [charListLe, hxy, hyx] at h1
        · have hn : x.toNat = y.toNat := by omega
          have hx : x = y := Char.ext (UInt32.ext hn)
          subst hx
          simp [charListLe, hxy, hyx] at h1 h2
          rw [ih ys h1 h2]

theorem pyStrLe_total (a b : String) :
    pyStrLe a b = true ∨ pyStrLe b a = true :=
  charListLe_total a.data b.data

theorem pyStrLe_trans (a b c : String) (h1 : pyStrLe a b = true)
    (h2 : pyStrLe b c = true) : pyStrLe a c = true :=
  charListLe_trans a.data b.data c.data h1 h2

theorem pyStrLe_antisymm (a b : String) (h1 : pyStrLe a b = true)
    (h2 : pyStrLe b a = true) : a = b := by
  cases a with
  | mk da =>
    cases b with
    | mk db => exact congrArg String.mk (charListLe_antisymm da db h1 h2)

/-! ## Lemmas about the Python `sorted` model -/

theorem mem_pyInsertBy {le : α → α → Bool} (x a : α) :
    ∀ l : List α, a ∈ pyInsertBy le x l ↔ a = x ∨ a ∈ l := by
  intro l
  induction l with
  | nil => simp [pyInsertBy]
  | cons y ys ih =>
    by_cases h : le x y = true
    · simp [pyInsertBy, h]
    · simp [pyInsertBy, h, ih]
      tauto

theorem pyInsertBy_perm {le : α → α → Bool} (x : α) :
    ∀ l : List α, (pyInsertBy le x l).Perm (x :: l) := by
  intro l
  induction l with
  | nil => simp [pyInsertBy]
  | cons y ys ih =>
    by_cases h : le x y = true
    · simp [pyInsertBy, h]
    · have hrw : pyInsertBy le x (y :: ys) = y :: pyInsertBy le x ys := by
        simp [pyInsertBy, h]
      rw [hrw]
      exact (ih.cons y).trans (List.Perm.swap x y ys)

theorem pySortedBy_perm {le : α → α → Bool} :
    ∀ l : List α, (pySortedBy le l).Perm l := by
  intro l
  induction l with
  | nil => simp [pySortedBy]
  | cons x xs ih =>
    simp only [pySortedBy]
    exact (pyInsertBy_perm x _).trans (ih.cons x)

theorem pairwise_pyInsertBy {le : α → α → Bool}
    (htrans : ∀ a b c, le a b = true → le b c = true → le a c = true)
    (htot : ∀ a b, le a b = true ∨ le b a = true) (x : α) :
    ∀ l, List.Pairwise (fun a b => le a b = true) l →
      List.Pairwise (fun a b => le a b = true) (pyInsertBy le x l) := by
  intro l
  induction l with
  | nil => intro _; simp [pyInsertBy]
  | cons y ys ih =>
    intro hp
    rcases List.pairwise_cons.mp hp with ⟨hy, hys⟩
    by_cases h : le x y = true
    · have hrw : pyInsertBy le x (y :: ys) = x :: y :: ys := by
        simp [pyInsertBy, h]
      rw [hrw]
      refine List.pairwise_cons.mpr ⟨?_, hp⟩
      intro z hz
      rcases List.mem_cons.mp hz with rfl | hz'
      · exact h
      · exact htrans x y z h (hy z hz')
    · have hrw : pyInsertBy le x (y :: ys) = y :: pyInsertBy le x ys := by
        simp [pyInsertBy, h]
      rw [hrw]
      refine List.pairwise_cons.mpr ⟨?_, ih hys⟩
      intro z hz
      rcases (mem_pyInsertBy x z ys).mp hz with hzx | hz'
      · rw [hzx]
        rcases htot x y with hxy | hyx
        · exact absurd hxy h
        · exact hyx
      · exact hy z hz'

theorem pairwise_pySortedBy {le : α → α → Bool}
    (htrans : ∀ a b c, le a b = true → le b c = true → le a c = true)
    (htot : ∀ a b, le a b = true ∨ le b a = true) :
    ∀ l : List α, List.Pairwise (fun a b => le a b = true) (pySortedBy le l) := by
  intro l
  induction l with
  | nil => simp [pySortedBy]
  | cons x xs ih =>
    simp only [pySortedBy]
    exact pairwise_pyInsertBy htrans htot x _ ih

/-! ## Lemmas about the Python `max` model -/

theorem pyMaxNE_cons (f : α → Nat) :
    ∀ (ys : List α) (y x : α),
      pyMaxNE f x (y :: ys)
        = if f x < f (pyMaxNE f y ys) then pyMaxNE f y ys else x := by
  intro ys
  induction ys with
  | nil => intro y x; simp [pyMaxNE]
  | cons z zs ih =>
    intro y x
    have hL : pyMaxNE f x (y :: z :: zs)
        = pyMaxNE f (if f x < f y then y else x) (z :: zs) := rfl
    rw [hL, ih z (if f x < f y then y else x), ih z y]
    split_ifs <;> first | rfl | omega

theorem pyMax?_cons (f : α → Nat) (x : α) (xs : List α) :
    pyMax? f (x :: xs) = some (pyMaxNE f x xs) := rfl

theorem head?_pySortedBy_max (f : α → Nat) :
    ∀ l : List α, l ≠ [] →
      (pySortedBy (fun a b => decide (f b ≤ f a)) l).head? = pyMax? f l := by
  intro l
  induction l with
  | nil => intro h; exact absurd rfl h
  | cons x xs ih =>
    intro _
    cases xs with
    | nil => simp [pySortedBy, pyInsertBy, pyMax?, pyMaxNE]
    | cons y ys =>
      have hx := ih (by simp)
      obtain ⟨m, rest, hmr⟩ :
          ∃ m rest, pySortedBy (fun a b => decide (f b ≤ f a)) (y :: ys) = m :: rest := by
        cases hsort : pySortedBy (fun a b => decide (f b ≤ f a)) (y :: ys) with
        | nil =>
          rw [hsort] at hx
          simp [pyMax?] at hx
        | cons m r => exact ⟨m, r, rfl⟩
      rw [hmr] at hx
      have hm : m = pyMaxNE f y ys := by
        have hx' : some m = some (pyMaxNE f y ys) := hx
        exact Option.some.inj hx'
      have hR : pyMax? f (x :: y :: ys)
          = some (if f x < f (pyMaxNE f y ys) then pyMaxNE f y ys else x) := by
        rw [pyMax?_cons, pyMaxNE_cons]
      simp only [pySortedBy] at hmr ⊢
      rw [hmr, hR]
      by_cases hle : f m ≤ f x
      · have hins : pyInsertBy (fun a b => decide (f b ≤ f a)) x (m :: rest)
            = x :: m :: rest := by
          simp [pyInsertBy, hle]
        rw [hins, ← hm, if_neg (by omega)]
        rfl
      · have hins : pyInsertBy (fun a b => decide (f b ≤ f a)) x (m :: rest)
            = m :: pyInsertBy (fun a b => decide (f b ≤ f a)) x rest := by
          simp [pyInsertBy, hle]
        rw [hins, ← hm, if_pos (by omega)]
        rfl

/-! ## Lemmas about the dict-counter model -/

theorem bump_map_snd_sum {K : Type} [DecidableEq K] (k : K) :
    ∀ m : List (K × Nat),
      ((bump m k).map Prod.snd).sum = (m.map Prod.snd).sum + 1 := by
  intro m
  induction m with
  | nil => simp [bump]
  | cons hd tl ih =>
    obtain ⟨k', c⟩ := hd
    by_cases h : k = k'
    · simp [bump, h]
      omega
    · simp [bump, h, ih]
      omega

theorem keys_bump {K : Type} [DecidableEq K] (k : K) :
    ∀ m : List (K × Nat),
      (bump m k).map Prod.fst
        = if k ∈ m.map Prod.fst then m.map Prod.fst
          else m.map Prod.fst ++ [k] := by
  intro m
  induction m with
  | nil => simp [bump]
  | cons hd tl ih =>
    obtain ⟨k', c⟩ := hd
    by_cases h : k = k'
    · simp [bump, h]
    · simp only [bump, if_neg h, List.map_cons]
      rw [ih]
      by_cases hmem : k ∈ tl.map Prod.fst
      · simp [hmem, h]
      · simp [hmem, h]

theorem nodup_keys_bump {K : Type} [DecidableEq K] (k : K) (m : List (K × Nat))
    (h : (m.map Prod.fst).Nodup) : ((bump m k).map Prod.fst).Nodup := by
  rw [keys_bump]
  by_cases hmem : k ∈ m.map Prod.fst
  · simp [hmem, h]
  · simp [hmem, List.nodup_append, h]

theorem mem_keys_bump {K : Type} [DecidableEq K] {k k' : K} {m : List (K × Nat)}
    (h : k' ∈ (bump m k).map Prod.fst) : k' ∈ m.map Prod.fst ∨ k' = k := by
  rw [keys_bump] at h
  by_cases hmem : k ∈ m.map Prod.fst
  · rw [if_pos hmem] at h
    exact Or.inl h
  · rw [if_neg hmem] at h
    rcases List.mem_append.mp h with h | h
    · exact Or.inl h
    · exact Or.inr (List.mem_singleton.mp h)

theorem foldl_bump_snd_sum {K : Type} [DecidableEq K] (ps : List K) :
    ∀ m : List (K × Nat),
      ((ps.foldl bump m).map Prod.snd).sum = (m.map Prod.snd).sum + ps.length := by
  induction ps with
  | nil => intro m; simp
  | cons p ps ih =>
    intro m
    rw [List.foldl_cons, ih, bump_map_snd_sum]
    simp [List.length_cons]
    omega

theorem foldl_bump_nodup {K : Type} [DecidableEq K] (ps : List K) :
    ∀ m : List (K × Nat), (m.map Prod.fst).Nodup →
      ((ps.foldl bump m).map Prod.fst).Nodup := by
  induction ps with
  | nil => intro m h; exact h
  | cons p ps ih => intro m h; exact ih _ (nodup_keys_bump p m h)

theorem foldl_bump_keys_sub {K : Type} [DecidableEq K] (ps : List K) :
    ∀ (m : List (K × Nat)) (k' : K),
      k' ∈ (ps.foldl bump m).map Prod.fst → k' ∈ m.map Prod.fst ∨ k' ∈ ps := by
  induction ps with
  | nil => intro m k' h; exact Or.inl h
  | cons p ps ih =>
    intro m k' h
    rcases ih (bump m p) k' h with h' | h'
    · rcases mem_keys_bump h' with h'' | h''
      · exact Or.inl h''
      · exact Or.inr (by simp [h''])
    · exact Or.inr (by simp [h'])

/-! ## Lemmas about the pair generation -/

theorem eventPairs_length (ps : List String) :
    (eventPairs ps).length = ps.length.choose 2 := by
  induction ps with
  | nil => simp [eventPairs]
  | cons p rest ih =>
    simp [eventPairs, ih, Nat.choose_succ_succ, Nat.choose_one_right]

theorem eventPairs_norm (ps : List String) :
    ∀ pr ∈ eventPairs ps, pyStrLe pr.1 pr.2 = true := by
  induction ps with
  | nil => simp [eventPairs]
  | cons p rest ih =>
    intro pr hpr
    simp only [eventPairs] at hpr
    rcases List.mem_append.mp hpr with h | h
    · rcases List.mem_map.mp h with ⟨q, _, rfl⟩
      unfold sorted2
      by_cases hle : pyStrLe p q = true
      · simp [hle]
      · rcases pyStrLe_total p q with h' | h'
        · exact absurd h' hle
        · simp [hle, h']
    · exact ih pr h

theorem eventPairs_nil_of_short (ps : List String) (h : ps.length ≤ 1) :
    eventPairs ps = [] := by
  cases ps with
  | nil => rfl
  | cons p rest =>
    cases rest with
    | nil => rfl
    | cons q rest' => simp at h

theorem pair_counts_snd_sum (evs : List Event) :
    ((pair_counts evs).map Prod.snd).sum
      = (evs.map (fun e => e.people.length.choose 2)).sum := by
  have main : ∀ (l : List Event) (m : List ((String × String) × Nat)),
      ((l.foldl (fun m e => (eventPairs e.people).foldl bump m) m).map Prod.snd).sum
        = (m.map Prod.snd).sum + (l.map (fun e => (eventPairs e.people).length)).sum := by
    intro l
    induction l with
    | nil => intro m; simp
    | cons e l ih =>
      intro m
      rw [List.foldl_cons, ih, foldl_bump_snd_sum]
      simp
      omega
  unfold pair_counts
  rw [main]
  simp [eventPairs_length]

theorem pair_counts_nodup_keys (evs : List Event) :
    ((pair_counts evs).map Prod.fst).Nodup := by
  have main : ∀ (l : List Event) (m : List ((String × String) × Nat)),
      (m.map Prod.fst).Nodup →
      ((l.foldl (fun m e => (eventPairs e.people).foldl bump m) m).map Prod.fst).Nodup := by
    intro l
    induction l with
    | nil => intro m h; exact h
    | cons e l ih => intro m h; exact ih _ (foldl_bump_nodup _ _ h)
  exact main evs [] (by simp)

theorem pair_counts_keys_norm (evs : List Event) :
    ∀ k ∈ (pair_counts evs).map Prod.fst, pyStrLe k.1 k.2 = true := by
  have main : ∀ (l : List Event) (m : List ((String × String) × Nat)),
      (∀ k ∈ m.map Prod.fst, pyStrLe k.1 k.2 = true) →
      ∀ k ∈ ((l.foldl (fun m e => (eventPairs e.people).foldl bump m) m).map Prod.fst),
        pyStrLe k.1 k.2 = true := by
    intro l
    induction l with
    | nil => intro m hm k hk; exact hm k hk
    | cons e l ih =>
      intro m hm k hk
      refine ih _ ?_ k hk
      intro k' hk'
      rcases foldl_bump_keys_sub (eventPairs e.people) m k' hk' with h | h
      · exact hm k' h
      · exact eventPairs_norm _ k' h
  intro k hk
  exact main evs [] (by simp) k hk

theorem pair_counts_nil_of_small (evs : List Event)
    (h : ∀ e ∈ evs, e.people.length ≤ 1) : pair_counts evs = [] := by
  unfold pair_counts
  induction evs with
  | nil => rfl
  | cons e l ih =>
    rw [List.foldl_cons, eventPairs_nil_of_short e.people (h e (by simp))]
    exact ih (fun e' he' => h e' (by simp [he']))

/-! ## Bridge lemmas -/

theorem head?_get_best_friends (evs : List Event) (h : pair_counts evs ≠ []) :
    (get_best_friends evs).head?
      = (pyMax? (fun pc => pc.2) (pair_counts evs)).map
          (fun pc => (⟨pc.1.1, pc.1.2, pc.2⟩ : FriendPairOut)) := by
  unfold get_best_friends
  rw [List.head?_map]
  congr 1
  exact head?_pySortedBy_max (fun pc => pc.2) (pair_counts evs) h

theorem pyStrip_pyLower_all_ws (raw : String)
    (h : ∀ c ∈ raw.data, c.isWhitespace = true) :
    pyStrip (pyLower raw) = "" := by
  have hlower : ∀ c ∈ (pyLower raw).data, c.isWhitespace = true := by
    intro c hc
    have hdata : (pyLower raw).data = raw.data.map Char.toLower := rfl
    rw [hdata] at hc
    rcases List.mem_map.mp hc with ⟨d, hd, rfl⟩
    have hw := h d hd
    have hfix : d.toLower = d := by
      simp [Char.isWhitespace] at hw
      rcases hw with ((h1 | h1) | h1) | h1 <;> subst h1 <;> decide
    rw [hfix]
    exact h d hd
  have hdrop : ((pyLower raw).data).dropWhile Char.isWhitespace = [] :=
    List.dropWhile_eq_nil_iff.mpr (fun x hx => hlower x hx)
  unfold pyStrip
  rw [hdrop]
  rfl

theorem takeLast_sorted_props (ns : List String) :
    (takeLast 3 (pySortedBy pyStrLe ns)).length = min 3 ns.length
    ∧ List.Pairwise (fun a b => pyStrLe a b = true) (takeLast 3 (pySortedBy pyStrLe ns))
    ∧ (∀ n ∈ takeLast 3 (pySortedBy pyStrLe ns), n ∈ ns)
    ∧ (∀ x ∈ ns, x ∈ takeLast 3 (pySortedBy pyStrLe ns)
        ∨ ∀ m ∈ takeLast 3 (pySortedBy pyStrLe ns), pyStrLe x m = true) := by
  have hpw := pairwise_pySortedBy pyStrLe_trans pyStrLe_total ns
  have hperm := @pySortedBy_perm String pyStrLe ns
  revert hpw hperm
  generalize pySortedBy pyStrLe ns = l
  intro hpw hperm
  refine ⟨?_, ?_, ?_, ?_⟩
  · show (l.drop (l.length - 3)).length = min 3 ns.length
    rw [List.length_drop, hperm.length_eq]
    omega
  · exact List.Pairwise.sublist (List.drop_sublist _ _) hpw
  · intro n hn
    have hnl : n ∈ l := (List.drop_sublist (l.length - 3) l).subset hn
    exact hperm.mem_iff.mp hnl
  · intro x hx
    have hxl : x ∈ l := hperm.mem_iff.mpr hx
    rcases List.mem_append.mp
        (by rw [List.take_append_drop (l.length - 3) l]; exact hxl) with hleft | hright
    · right
      intro m hm
      have hpw' : List.Pairwise (fun a b => pyStrLe a b = true)
          (List.take (l.length - 3) l ++ List.drop (l.length - 3) l) := by
        rw [List.take_append_drop]
        exact hpw
      exact (List.pairwise_append.mp hpw').2.2 x hleft m hm
    · left
      exact hright

/-! ## The claims -/

/-- C1 (code bug): the pair-generation loops do NOT skip the degenerate
self-pair arising from a duplicated name in one event's people list: on
an event with people `["Alice", "Alice"]` the best-friends listing, the
summary top-pair text and the fallback answer all expose the self-pair
`Alice`/`Alice` with count 1, contradicting the required guard. -/
theorem C1_self_pair_not_guarded :
    get_best_friends [⟨"u1", "E1", "hiking", none, ["Alice", "Alice"]⟩]
        = [⟨"Alice", "Alice", 1⟩]
    ∧ best_friends_text [⟨"u1", "E1", "hiking", none, ["Alice", "Alice"]⟩]
        = "Alice & Alice (1 events together)"
    ∧ (fallback_query_analysis [⟨"u1", "E1", "hiking", none, ["Alice", "Alice"]⟩]
          "best friends").answer
        = "Alice and Alice are the best friends with 1 events together." := by
  decide

/-- C2 counterexample: on a batch where names and timestamps sort in
opposite orders, `recent_events` is the three lexically greatest NAMES
(["B","C","D"]) and differs from the claim's sort-by-timestamp reading
(["C","B","A"]); event "A", which has the greatest timestamp, is absent. -/
theorem C2_cex_recent_by_name :
    recent_events cexC2Events = ["B", "C", "D"]
    ∧ recent_event_names_spec cexC2Events = ["C", "B", "A"]
    ∧ recent_events cexC2Events ≠ recent_event_names_spec cexC2Events
    ∧ "A" ∉ recent_events cexC2Events := by
  decide

/-- C2 (amended): `recent_event_names` holds the (up to) three lexically
greatest event NAMES among the events with a non-null timestamp, sorted
ascending by name; events lacking a timestamp are excluded entirely.
The list has exactly `min 3 (number of timestamped events)` entries, its
entries are names of timestamped events of the batch, and every
timestamped event's name either appears in it or is bounded by all of
its entries — so the three greatest names are actually present. -/
theorem C2_recent_events_name_order (evs : List Event) :
    (recent_events evs).length
        = min 3 ((evs.filter (fun e => e.date_time.isSome)).length)
    ∧ List.Pairwise (fun a b => pyStrLe a b = true) (recent_events evs)
    ∧ (∀ n ∈ recent_events evs, ∃ e ∈ evs, e.name = n ∧ e.date_time.isSome = true)
    ∧ (∀ e ∈ evs, e.date_time.isSome = true →
        e.name ∈ recent_events evs
        ∨ ∀ m ∈ recent_events evs, pyStrLe e.name m = true) := by
  by_cases hev : evs.isEmpty
  · have h0 : evs = [] := by
      cases evs with
      | nil => rfl
      | cons a l => simp [List.isEmpty] at hev
    subst h0
    refine ⟨by simp [recent_events], by simp [recent_events], ?_, ?_⟩
    · intro n hn
      simp [recent_events] at hn
    · intro e he
      simp at he
  · have hrw : recent_events evs = takeLast 3 (pySortedBy pyStrLe
        ((evs.filter (fun e => e.date_time.isSome)).map (fun e => e.name))) := by
      unfold recent_events
      rw [if_neg hev]
    obtain ⟨h1, h2, h3, h4⟩ := takeLast_sorted_props
      ((evs.filter (fun e => e.date_time.isSome)).map (fun e => e.name))
    refine ⟨by rw [hrw, h1, List.length_map], by rw [hrw]; exact h2, ?_, ?_⟩
    · intro n hn
      rw [hrw] at hn
      rcases List.mem_map.mp (h3 n hn) with ⟨e, he, rfl⟩
      rcases List.mem_filter.mp he with ⟨he1, he2⟩
      exact ⟨e, he1, rfl, he2⟩
    · intro e he hsome
      have hin : e.name
          ∈ (evs.filter (fun e => e.date_time.isSome)).map (fun e => e.name) :=
        List.mem_map_of_mem _ (List.mem_filter.mpr ⟨he, hsome⟩)
      rcases h4 e.name hin with h | h
      · left
        rw [hrw]
        exact h
      · right
        intro m hm
        rw [hrw] at hm
        exact h m hm

/-- C2 witness: the amended theorem applied to the concrete batch: the
member "B" of the recent list is the name of a timestamped event. -/
theorem C2_recent_events_name_order_w :
    ∃ e ∈ cexC2Events, e.name = "B" ∧ e.date_time.isSome = true :=
  (C2_recent_events_name_order cexC2Events).2.2.1 "B" (by decide)

/-- C3: the best-friends listing is sorted non-increasing by count. -/
theorem C3_best_friends_sorted_desc (evs : List Event) :
    List.Pairwise (fun a b => b.events_together ≤ a.events_together)
      (get_best_friends evs) := by
  unfold get_best_friends
  rw [List.pairwise_map]
  have h := @pairwise_pySortedBy ((String × String) × Nat) descByCount
    (fun a b c h1 h2 => by
      simp [descByCount] at h1 h2 ⊢
      omega)
    (fun a b => by
      simp [descByCount]
      omega)
    (pair_counts evs)
  exact h.imp (fun hab => by simpa [descByCount] using hab)

/-- C4 (amended): the aggregator's output has at most one FriendPair per
unordered name pair, and the counts sum to the total number of
distinct-position 2-combinations over all events, Σ_e C(|people_e|, 2) —
WITHOUT self-pair guarding, since the code has no such guard. -/
theorem C4_aggregate_unique_and_total (evs : List Event) :
    List.Pairwise (fun a b => ¬ sameUnordered a b) (get_best_friends evs)
    ∧ ((get_best_friends evs).map (fun r => r.events_together)).sum
        = (evs.map (fun e => e.people.length.choose 2)).sum := by
  constructor
  · unfold get_best_friends
    rw [List.pairwise_map]
    have hperm := @pySortedBy_perm ((String × String) × Nat) descByCount (pair_counts evs)
    have hnodup : ((pair_counts evs).map Prod.fst).Nodup := pair_counts_nodup_keys evs
    have h0 : List.Pairwise (fun a b => a ≠ b) ((pair_counts evs).map Prod.fst) := hnodup
    have hpw : List.Pairwise (fun a b => a.1 ≠ b.1) (pair_counts evs) :=
      List.pairwise_map.mp h0
    have hpw2 : List.Pairwise (fun a b => a.1 ≠ b.1)
        (pySortedBy descByCount (pair_counts evs)) :=
      (List.Perm.pairwise_iff (fun hxy => Ne.symm hxy) hperm).mpr hpw
    have hnorm : ∀ k ∈ pySortedBy descByCount (pair_counts evs),
        pyStrLe k.1.1 k.1.2 = true := by
      intro k hk
      have hk2 : k.1 ∈ (pair_counts evs).map Prod.fst :=
        List.mem_map_of_mem Prod.fst (hperm.mem_iff.mp hk)
      exact pair_counts_keys_norm evs k.1 hk2
    refine List.Pairwise.imp_of_mem ?_ hpw2
    rintro ⟨⟨a1, a2⟩, ac⟩ ⟨⟨b1, b2⟩, bc⟩ ha hb hne hsame
    have hna : pyStrLe a1 a2 = true := hnorm _ ha
    have hnb : pyStrLe b1 b2 = true := hnorm _ hb
    rcases hsame with ⟨hx, hy⟩ | ⟨hx, hy⟩
    · simp only at hx hy
      subst hx
      subst hy
      exact hne rfl
    · simp only at hx hy
      subst hx
      subst hy
      have heq : a1 = a2 := pyStrLe_antisymm a1 a2 hna hnb
      subst heq
      exact hne rfl
  · have hperm : ((pySortedBy descByCount (pair_counts evs)).map Prod.snd).Perm
        ((pair_counts evs).map Prod.snd) :=
      (@pySortedBy_perm ((String × String) × Nat) descByCount (pair_counts evs)).map Prod.snd
    unfold get_best_friends
    rw [List.map_map]
    calc ((pySortedBy descByCount (pair_counts evs)).map
            ((fun r : FriendPairOut => r.events_together)
              ∘ (fun pc => ⟨pc.1.1, pc.1.2, pc.2⟩))).sum
        = ((pySortedBy descByCount (pair_counts evs)).map Prod.snd).sum := rfl
      _ = ((pair_counts evs).map Prod.snd).sum := hperm.sum_eq
      _ = (evs.map (fun e => e.people.length.choose 2)).sum := pair_counts_snd_sum evs

/-- C4 counterexample: on one event with people `["A", "A"]` the counts
sum to 1 while the claim's guarded total (self-pairs skipped) is 0, so
the claimed equality fails on the code. -/
theorem C4_cex_sum_ne_guarded :
    ((get_best_friends [⟨"u1", "E1", "x", none, ["A", "A"]⟩]).map
        (fun r => r.events_together)).sum = 1
    ∧ guardedPairTotal [⟨"u1", "E1", "x", none, ["A", "A"]⟩] = 0
    ∧ ((get_best_friends [⟨"u1", "E1", "x", none, ["A", "A"]⟩]).map
        (fun r => r.events_together)).sum
      ≠ guardedPairTotal [⟨"u1", "E1", "x", none, ["A", "A"]⟩] := by
  decide

/-- C5: with a model adapter that always fails and a question containing
"best friends", the query pipeline returns a fallback-typed result (no
error is propagated) whose answer names the top pair — the head of the
best-friends listing computed on the same event batch — with its count. -/
theorem C5_fallback_names_top_pair (adapter : String → Option String)
    (ser : DataContext → String) (ctx : DataContext) (q : String)
    (hfail : ∀ p, adapter p = none)
    (hq : pyIn "best friends" (pyLower q) = true)
    (hne : pair_counts ctx.events ≠ []) :
    ∃ a b c,
      best_friends_opt ctx.events = some ((a, b), c)
      ∧ (process_query_with_claude adapter ser ctx q).1
          = ⟨a ++ " and " ++ b ++ " are the best friends with " ++ toString c
              ++ " events together.", "fallback"⟩
      ∧ (get_best_friends ctx.events).head? = some ⟨a, b, c⟩ := by
  obtain ⟨x, xs, hxs⟩ : ∃ x xs, pair_counts ctx.events = x :: xs := by
    cases hpc : pair_counts ctx.events with
    | nil => exact absurd hpc hne
    | cons x xs => exact ⟨x, xs, rfl⟩
  have hmax : pyMax? (fun pc : (String × String) × Nat => pc.2) (pair_counts ctx.events)
      = some (pyMaxNE (fun pc => pc.2) x xs) := by
    rw [hxs]
    rfl
  rcases hMeq : pyMaxNE (fun pc : (String × String) × Nat => pc.2) x xs with ⟨⟨a, b⟩, c⟩
  refine ⟨a, b, c, ?_, ?_, ?_⟩
  · unfold best_friends_opt
    rw [hmax, hMeq]
  · unfold process_query_with_claude
    simp only [hfail]
    show fallback_query_analysis ctx.events q = _
    unfold fallback_query_analysis
    have hcond : (pyIn "best friends" (pyLower q) || pyIn "together" (pyLower q)) = true := by
      simp [hq]
    simp only [hcond, if_true]
    rw [hmax, hMeq]
  · rw [head?_get_best_friends ctx.events hne, hmax, hMeq]
    rfl

/-- C5 witness: the theorem applied to a one-event batch and the
constantly failing adapter. -/
theorem C5_fallback_names_top_pair_w :
    ∃ a b c,
      best_friends_opt [⟨"u1", "E1", "x", none, ["A", "B"]⟩] = some ((a, b), c)
      ∧ (process_query_with_claude (fun _ => none) (fun _ => "CTX")
            ⟨[⟨"u1", "E1", "x", none, ["A", "B"]⟩], [], []⟩ "best friends").1
          = ⟨a ++ " and " ++ b ++ " are the best friends with " ++ toString c
              ++ " events together.", "fallback"⟩
      ∧ (get_best_friends [⟨"u1", "E1", "x", none, ["A", "B"]⟩]).head?
          = some ⟨a, b, c⟩ :=
  C5_fallback_names_top_pair (fun _ => none) (fun _ => "CTX")
    ⟨[⟨"u1", "E1", "x", none, ["A", "B"]⟩], [], []⟩ "best friends"
    (fun _ => rfl) (by decide) (by decide)

/-- C6: a question that is empty or whitespace-only is rejected with the
400 `InvalidInput` response and the model adapter is never invoked (the
recorded prompt list is empty). -/
theorem C6_blank_query_rejected (adapter : String → Option String)
    (ser : DataContext → String) (ctx : DataContext) (raw : String)
    (h : ∀ c ∈ raw.data, c.isWhitespace = true) :
    query_friends adapter ser ctx raw = (Except.error "Query is required", []) := by
  unfold query_friends
  simp [pyStrip_pyLower_all_ws raw h]

/-- C6 witness: the theorem applied to the whitespace question `"   "`. -/
theorem C6_blank_query_rejected_w :
    query_friends (fun _ => some "x") (fun _ => "CTX") ⟨[], [], []⟩ "   "
      = (Except.error "Query is required", []) :=
  C6_blank_query_rejected (fun _ => some "x") (fun _ => "CTX") ⟨[], [], []⟩ "   "
    (by decide)

/-- C7: every event returned by the person listing has the person's name
as a literal member of its people list. -/
theorem C7_person_events_exact (results : List Event) (name : String) :
    ∀ e ∈ (get_events_by_person results name).events, name ∈ e.people := by
  intro e he
  simp only [get_events_by_person, List.mem_filter, decide_eq_true_eq] at he
  exact he.2

/-- C7 witness: the theorem applied to a search-result list containing a
keyword false positive ("Bobby" for "Bob"). -/
theorem C7_person_events_exact_w :
    "Bob" ∈ (Event.mk "u1" "E1" "x" none ["Bob", "Amy"]).people :=
  C7_person_events_exact
    [⟨"u1", "E1", "x", none, ["Bob", "Amy"]⟩, ⟨"u2", "E2", "x", none, ["Bobby"]⟩]
    "Bob" ⟨"u1", "E1", "x", none, ["Bob", "Amy"]⟩ (by decide)

/-- C8 counterexample: for the non-blank question "WHO" the prompt handed
to the adapter is NOT the template instantiated with the verbatim
question — the question was lowercased first, and the raw text "WHO"
does not occur anywhere in the prompt that was sent. -/
theorem C8_cex_prompt_not_verbatim :
    (query_friends (fun _ => some "ok") (fun _ => "SERIALIZED") ⟨[], [], []⟩ "WHO").2
      ≠ [construct_prompt "SERIALIZED" (create_data_analysis []) "WHO"]
    ∧ pyIn "WHO"
        (((query_friends (fun _ => some "ok") (fun _ => "SERIALIZED")
            ⟨[], [], []⟩ "WHO").2).headD "") = false := by
  decide

/-- C8 (amended): for every non-blank question, the single prompt handed
to the adapter is the fixed template with the serialized data context,
then the summary text, then the `.lower().strip()`-normalized question
embedded verbatim in the question slot. -/
theorem C8_prompt_embeds_normalized_question (adapter : String → Option String)
    (ser : DataContext → String) (ctx : DataContext) (raw : String)
    (h : pyStrip (pyLower raw) ≠ "") :
    (query_friends adapter ser ctx raw).2
      = [construct_prompt (ser ctx) (create_data_analysis ctx.events)
          (pyStrip (pyLower raw))] := by
  unfold query_friends process_query_with_claude
  rw [if_neg h]
  cases hA : adapter (construct_prompt (ser ctx) (create_data_analysis ctx.events)
      (pyStrip (pyLower raw))) <;> simp [hA]

/-- C8 witness: the amended theorem applied to the question "WHO". -/
theorem C8_prompt_embeds_normalized_question_w :
    (query_friends (fun _ => some "ok") (fun _ => "SERIALIZED") ⟨[], [], []⟩ "WHO").2
      = [construct_prompt "SERIALIZED" (create_data_analysis [])
          (pyStrip (pyLower "WHO"))] :=
  C8_prompt_embeds_normalized_question (fun _ => some "ok") (fun _ => "SERIALIZED")
    ⟨[], [], []⟩ "WHO" (by decide)

/-- C9: on the empty batch the aggregation is empty and the summarizer
returns zero counts, `None` most-active/most-popular fields, the
"None calculated" top-pair text and an empty recent list — a total
value, no exception. -/
theorem C9_empty_batch_defaults :
    get_best_friends [] = []
    ∧ person_counts [] = [] ∧ activity_counts [] = [] ∧ pair_counts [] = []
    ∧ top_person [] = none ∧ top_activity [] = none ∧ best_friends_opt [] = none
    ∧ best_friends_text [] = "None calculated"
    ∧ recent_events [] = []
    ∧ create_data_analysis []
        = "\nQUICK STATS:\n- Total events: 0\n- Total unique people: 0\n- Total unique activities: 0\n- Most active person: None (0 events)\n- Most popular activity: None (0 events)\n- Best friends: None calculated\n- Recent events: []\n" := by
  decide

/-- C10: when no event has two or more attendees, the fallback answerer
on a "best friends"/"together" question returns the fixed cannot-process
message (and, being total, always returns a value). -/
theorem C10_fallback_no_pairs (evs : List Event) (q : String)
    (hsmall : ∀ e ∈ evs, e.people.length ≤ 1)
    (hq : pyIn "best friends" (pyLower q) = true
          ∨ pyIn "together" (pyLower q) = true) :
    fallback_query_analysis evs q = fallbackCannot := by
  have hpc : pair_counts evs = [] := pair_counts_nil_of_small evs hsmall
  have hcond : (pyIn "best friends" (pyLower q) || pyIn "together" (pyLower q)) = true := by
    rcases hq with h | h <;> simp [h]
  unfold fallback_query_analysis
  rw [hpc]
  simp only [hcond, if_true]
  rfl

/-- C10 witness: the theorem applied to a batch of one single-attendee
event and the question "best friends". -/
theorem C10_fallback_no_pairs_w :
    fallback_query_analysis [⟨"u1", "E1", "x", none, ["A"]⟩] "best friends"
      = fallbackCannot :=
  C10_fallback_no_pairs [⟨"u1", "E1", "x", none, ["A"]⟩] "best friends"
    (by decide) (Or.inl (by decide))
